import Mathlib

set_option maxHeartbeats 1600000

namespace GitAchievements

/-- JSON-like event trees: scalars, arrays and string-keyed objects, the
payloads that `find_nested_json` (src/app/achievement/utils.py) traverses. -/
inductive Json where
  | null : Json
  | bool : Bool → Json
  | num : Int → Json
  | str : String → Json
  | arr : List Json → Json
  | obj : List (String × Json) → Json

/-- Python dict access: `key in obj` membership together with `obj[key]`,
returning the first matching field. -/
def lookupField : List (String × Json) → String → Option Json
  | [], _ => none
  | (k, v) :: rest, key => if k = key then some v else lookupField rest key

/-- Character-list prefix test, a building block for the substring
semantics of the Python expression `key in s` when `s` is a string. -/
def charsBeginWith : List Char → List Char → Bool
  | [], _ => true
  | _ :: _, [] => false
  | p :: ps, c :: cs => p == c && charsBeginWith ps cs

/-- Substring occurrence test on character lists. -/
def charsHaveSub : List Char → List Char → Bool
  | [], pat => pat.isEmpty
  | c :: rest, pat => charsBeginWith pat (c :: rest) || charsHaveSub rest pat

/-- Python `key in s` for strings: substring containment. -/
def pyInStr (key s : String) : Bool :=
  charsHaveSub s.toList key.toList

/-- Python `key in l` for a list value: membership by equality, where the
string `key` can only equal a string element. -/
def listContainsStr (l : List Json) (key : String) : Bool :=
  l.any (fun el => match el with | .str s => s == key | _ => false)

/-- Python `attribute.split('.')` with a one-character separator, as used
by `ValueCondition.__call__`: `"".split('.') == [""]`, and empty segments
are kept between consecutive dots. -/
def splitDotsAux : List Char → List Char → List (List Char)
  | [], acc => [acc.reverse]
  | c :: rest, acc =>
    if c == '.' then acc.reverse :: splitDotsAux rest []
    else splitDotsAux rest (c :: acc)

/-- Dotted attribute path split into its list of keys. -/
def pySplitDot (s : String) : List String :=
  (splitDotsAux s.toList []).map String.mk

/-- Outcome of the inner `while` loop of `find_nested_json` on one queue
entry `(obj, keys)`.  Each constructor that stops mid-walk carries the
state the entry's key list has been mutated to by the `keys.pop(0)` calls
executed so far (the missing-key test and the TypeError both happen before
the pop of the current key).  `leaf` consumes the entire list. -/
inductive Step where
  | err : List String → Step
  | missing : List String → Step
  | fanout : List Json → List String → Step
  | leaf : Json → Step
  | nokeys : Step

/-- One queue entry of `find_nested_json`: consume keys one at a time.
A missing key reports `missing`; a list value re-enqueues its elements
with the remaining keys (`fanout`); exhausting the keys on a non-list
value yields `leaf`; an entry dequeued with no keys runs the loop zero
times (`nokeys`).  `key in obj` on a number, boolean or None raises a
TypeError (`err`), on a string it is a substring test and on a list a
membership test, with the subsequent `obj[key]` raising in those cases. -/
def processEntry : Json → List String → Step
  | _, [] => .nokeys
  | o, key :: rest =>
    match o with
    | .obj fields =>
      match lookupField fields key with
      | none => .missing (key :: rest)
      | some v =>
        match v, rest with
        | .arr l, _ => .fanout l rest
        | w, [] => .leaf w
        | w, r :: rs => processEntry w (r :: rs)
    | .str s => if pyInStr key s then .err (key :: rest) else .missing (key :: rest)
    | .arr l => if listContainsStr l key then .err (key :: rest) else .missing (key :: rest)
    | _ => .err (key :: rest)

theorem Json.sizeOf_pos (o : Json) : 0 < sizeOf o := by
  cases o <;> simp_arith

theorem processEntry_obj_chain {fields : List (String × Json)} {key r : String}
    {rs : List String} {w : Json} (hl : lookupField fields key = some w)
    (hne : ∀ l, w = Json.arr l → False) :
    processEntry (Json.obj fields) (key :: r :: rs) = processEntry w (r :: rs) := by
  cases w with
  | arr l => exact (hne l rfl).elim
  | null => simp [processEntry, hl]
  | bool b => simp [processEntry, hl]
  | num n => simp [processEntry, hl]
  | str s => simp [processEntry, hl]
  | obj fs => simp [processEntry, hl]

theorem lookupField_sizeOf_lt {fields : List (String × Json)} {key : String} {v : Json}
    (h : lookupField fields key = some v) : sizeOf v < sizeOf (Json.obj fields) := by
  induction fields with
  | nil => simp [lookupField] at h
  | cons p rest ih =>
    obtain ⟨k0, v0⟩ := p
    by_cases hk : k0 = key
    · simp [lookupField, hk] at h
      subst h
      simp_arith
    · simp [lookupField, hk] at h
      have := ih h
      simp_arith at this ⊢
      omega

theorem sumSizes_lt_arr (l : List Json) :
    (l.map (fun el => sizeOf el)).sum < sizeOf (Json.arr l) := by
  induction l with
  | nil => simp_arith
  | cons a rest ih =>
    simp_arith at ih ⊢
    omega

theorem processEntry_fanout_sizeOf {o : Json} {ks : List String} :
    ∀ {l : List Json} {ks2 : List String}, processEntry o ks = .fanout l ks2 →
    (l.map (fun el => sizeOf el)).sum < sizeOf o := by
  induction o, ks using processEntry.induct with
  | case1 o =>
    intro l ks2 h
    simp [processEntry] at h
  | case2 key rest fields hl =>
    intro l ks2 h
    simp [processEntry, hl] at h
  | case3 key rest fields l0 hl =>
    intro l ks2 h
    simp [processEntry, hl] at h
    rw [← h.1]
    exact lt_trans (sumSizes_lt_arr l0) (lookupField_sizeOf_lt hl)
  | case4 key fields w hne hl =>
    intro l ks2 h
    cases w <;> simp [processEntry, hl] at h
    exact (hne _ rfl).elim
  | case5 key fields w r rs hne hl ih =>
    intro l ks2 h
    rw [processEntry_obj_chain hl (fun a ha => hne a ha)] at h
    exact lt_trans (ih h) (lookupField_sizeOf_lt hl)
  | case6 key rest s hs =>
    intro l ks2 h
    simp [processEntry, hs] at h
  | case7 key rest s hs =>
    intro l ks2 h
    simp [processEntry, hs] at h
  | case8 key rest l0 hc =>
    intro l ks2 h
    simp [processEntry, hc] at h
  | case9 key rest l0 hc =>
    intro l ks2 h
    simp [processEntry, hc] at h
  | case10 o key rest h1 h2 h3 =>
    intro l ks2 h
    cases o with
    | obj fields => exact (h1 _ rfl).elim
    | str s => exact (h2 _ rfl).elim
    | arr l0 => exact (h3 _ rfl).elim
    | null => simp [processEntry] at h
    | bool b => simp [processEntry] at h
    | num n => simp [processEntry] at h

/-- The `while len(enqueued) > 0` loop of `find_nested_json`: process
entries first-in first-out, appending exhausted values to `results`.
A missing key anywhere returns `None` for the whole call; a TypeError
aborts the call; an empty final result collection is reported as `None`. -/
def runQueue : List (Json × List String) → List Json → Except Unit (Option (List Json))
  | [], results => .ok (if results.isEmpty then none else some results)
  | (o, ks) :: rest, results =>
    match h : processEntry o ks with
    | .err _ => .error ()
    | .missing _ => .ok none
    | .nokeys => runQueue rest results
    | .leaf v => runQueue rest (results ++ [v])
    | .fanout l ks2 => runQueue (rest ++ l.map (fun el => (el, ks2))) results
termination_by queue _ => (queue.map (fun e => sizeOf e.1)).sum
decreasing_by
  · simp
    have := Json.sizeOf_pos o
    omega
  · simp
    have := Json.sizeOf_pos o
    omega
  · have hs := processEntry_fanout_sizeOf h
    simp [List.sum_append, List.map_map, Function.comp_def]
    omega

/-- `find_nested_json(obj, keys)`: seed the queue with the caller's pair
and run the loop. -/
def findNestedJson (o : Json) (keys : List String) : Except Unit (Option (List Json)) :=
  runQueue [(o, keys)] []

/-- State of the caller's `keys` list after `find_nested_json` returns or
raises: only the first queue entry aliases the caller's list (fan-out
copies it with `keys[:]`), so the mutation visible to the caller is the
sequence of `keys.pop(0)` calls performed on that first entry. -/
def findNestedJsonKeysAfter (o : Json) (keys : List String) : List String :=
  match processEntry o keys with
  | .nokeys => keys
  | .leaf _ => []
  | .missing rem => rem
  | .err rem => rem
  | .fanout _ rem => rem

/-- Number of keys the top-level walk of `find_nested_json` pops from the
caller's list: one per present key consumed, stopping at a missing key, a
TypeError, a fan-out point, or the end of the path. -/
def consumedTopLevel : Json → List String → Nat
  | _, [] => 0
  | o, key :: rest =>
    match o with
    | .obj fields =>
      match lookupField fields key with
      | none => 0
      | some v =>
        match v with
        | .arr _ => 1
        | w => 1 + consumedTopLevel w rest
    | _ => 0

/-- A key of the path is absent, under Python's `in` test, at the point of
the event that the traversal of `find_nested_json` associates with it, on
at least one fan-out branch.  At points where the `in` test itself raises
(numbers, booleans, None) no key counts as absent. -/
def missingSomewhere : Json → List String → Bool
  | _, [] => false
  | o, key :: rest =>
    match o with
    | .obj fields =>
      match lookupField fields key with
      | none => true
      | some v =>
        match v with
        | .arr l => l.any (fun el => missingSomewhere el rest)
        | w => missingSomewhere w rest
    | .str s => !pyInStr key s
    | .arr l => !listContainsStr l key
    | _ => false

/-- `ValueCondition` (achievement_models.py): a stored method, a dotted
attribute path, a literal comparison value, and optional qualifier and
quantifier callables.  The callables the registry would resolve are
modelled as the functions themselves, at the types of their call sites;
`conditionCustom` is `condition_type.is_custom()`. -/
structure ValueCondition where
  eventType : String
  conditionCustom : Bool
  method : Json → String → Bool
  attr : String
  value : String
  qualifier : Option (Json → Json)
  quantifier : Option (List Bool → Bool)

/-- `ValueCondition.__call__`: custom conditions are never auto-evaluated
(False); a failed resolution yields False; otherwise each resolved value
is qualified, compared to the stored literal, and the booleans are folded
by the quantifier, or by `all(...)` when no quantifier is stored. -/
def ValueCondition.call (c : ValueCondition) (event : Json) : Except Unit Bool :=
  if c.conditionCustom then .ok false
  else
    match findNestedJson event (pySplitDot c.attr) with
    | .error _ => .error ()
    | .ok none => .ok false
    | .ok (some data) =>
      let passed := data.map (fun v =>
        c.method (match c.qualifier with | some q => q v | none => v) c.value)
      .ok (match c.quantifier with | some q => q passed | none => passed.all (fun b => b))

/-- `AttributeCondition` (achievement_models.py): a stored method, an
ordered list of attribute paths (each a list of keys), and a positional
list of optional qualifiers. -/
structure AttributeCondition where
  eventType : String
  conditionCustom : Bool
  method : List (List Json) → Bool
  attributes : List (List String)
  qualifiers : List (Option (List Json → List Json))

/-- The loop of `AttributeCondition.__call__`: resolve each attribute path
in order; a failed resolution returns `None` for the whole condition; the
positional qualifier, when the index is in range and the entry is not
None, transforms the resolved collection; finally the method is applied to
all collected results.  The second component is the post-call state of the
stored attribute-path lists, which `find_nested_json` mutates in place for
every path it was handed before an early return. -/
def attrEvalAux (event : Json) (method : List (List Json) → Bool)
    (qualifiers : List (Option (List Json → List Json))) :
    List (List String) → Nat → List (List Json) →
    Except Unit (Option Bool) × List (List String)
  | [], _, results => (.ok (some (method results)), [])
  | path :: rest, index, results =>
    let pathAfter := findNestedJsonKeysAfter event path
    match findNestedJson event path with
    | .error _ => (.error (), pathAfter :: rest)
    | .ok none => (.ok none, pathAfter :: rest)
    | .ok (some data0) =>
      let data := match qualifiers.getD index none with
        | some q => q data0
        | none => data0
      let t := attrEvalAux event method qualifiers rest (index + 1) (results ++ [data])
      (t.1, pathAfter :: t.2)

/-- `AttributeCondition.__call__` with the mutation of the stored
attribute paths made explicit in the second component. -/
def AttributeCondition.callM (c : AttributeCondition) (event : Json) :
    Except Unit (Option Bool) × List (List String) :=
  if c.conditionCustom then (.ok (some false), c.attributes)
  else attrEvalAux event c.method c.qualifiers c.attributes 0 []

/-- Return value of `AttributeCondition.__call__`. -/
def AttributeCondition.call (c : AttributeCondition) (event : Json) :
    Except Unit (Option Bool) :=
  (c.callM event).1

/-- `CustomCondition` (achievement_models.py): dispatches to a handler
from `app.achievement.lib`, modelled as the function itself. -/
structure CustomCondition where
  eventType : String
  conditionCustom : Bool
  method : Json → Bool

/-- `CustomCondition.__call__`: apply the registered handler to the event. -/
def CustomCondition.call (c : CustomCondition) (event : Json) : Bool :=
  c.method event

/-- The condition variants an `AchievementCondition` can point to through
its generic foreign key. -/
inductive Condition where
  | value : ValueCondition → Condition
  | attr : AttributeCondition → Condition
  | custom : CustomCondition → Condition

/-- `Condition.type`: the name of the event type the condition reacts to. -/
def Condition.eventType : Condition → String
  | .value c => c.eventType
  | .attr c => c.eventType
  | .custom c => c.eventType

/-- Calling a condition on an event payload: `ValueCondition` returns a
boolean, `AttributeCondition` a boolean or Python `None` (modelled as
`none`), `CustomCondition` whatever its handler returns. -/
def Condition.call : Condition → Json → Except Unit (Option Bool)
  | .value c, e =>
    match c.call e with
    | .error u => .error u
    | .ok b => .ok (some b)
  | .attr c, e => c.call e
  | .custom c, e => .ok (some (c.call e))

/-- `AchievementCondition`: the many-to-many row tying an achievement to a
condition; `id` is the row's primary key tracked in `satisfied`. -/
structure AchievementCondition where
  id : Nat
  condition : Condition

/-- The three grouping operators `Achievement.CONDITION_GROUPING` allows:
`__and__`, `__or__`, `__xor__`, fetched from `bool`. -/
inductive Grouping where
  | and
  | or
  | xor

/-- The boolean operator each grouping name denotes on two booleans. -/
def Grouping.apply : Grouping → Bool → Bool → Bool
  | .and, a, b => a && b
  | .or, a, b => a || b
  | .xor, a, b => Bool.xor a b

/-- Value of the `passed` accumulator in `Achievement.unlocked`: a Python
bool, or the `NotImplemented` object that `bool.__and__`/`__or__`/`__xor__`
return when their second argument is not a bool (e.g. a condition that
returned `None`). -/
inductive PyVal where
  | bool : Bool → PyVal
  | notImpl

/-- One step `passed = grouping(passed, result)` of `Achievement.unlocked`:
on two booleans the named operator; a bool combined with `None` gives
`NotImplemented`; the unbound method applied to a non-bool `passed` raises
a TypeError. -/
def pyGroup (g : Grouping) : PyVal → Option Bool → Except Unit PyVal
  | .bool a, some b => .ok (.bool (g.apply a b))
  | .bool _, none => .ok .notImpl
  | .notImpl, _ => .error ()

/-- The loop of `Achievement.unlocked` over the attached conditions, in
order: a condition whose id is in `satisfied` is skipped; an event-type
mismatch immediately returns False; otherwise the condition is called and
its result folded into the accumulator.  The second component records the
ids of the conditions whose `__call__` was actually invoked. -/
def unlockedAux (g : Grouping) (event : String) (payload : Json)
    (satisfied : List Nat) :
    List AchievementCondition → PyVal → Except Unit PyVal × List Nat
  | [], passed => (.ok passed, [])
  | c :: rest, passed =>
    if c.id ∈ satisfied then
      unlockedAux g event payload satisfied rest passed
    else if c.condition.eventType = event then
      match c.condition.call payload with
      | .error _ => (.error (), [c.id])
      | .ok r =>
        match pyGroup g passed r with
        | .error _ => (.error (), [c.id])
        | .ok passed1 =>
          let t := unlockedAux g event payload satisfied rest passed1
          (t.1, c.id :: t.2)
    else (.ok (.bool false), [])

/-- `Achievement` as `unlocked` uses it: the `achievement_type.is_custom()`
flag, the grouping operator, and the ordered attached conditions. -/
structure Achievement where
  custom : Bool
  grouping : Grouping
  conditions : List AchievementCondition

/-- `Achievement.unlocked(event, payload, satisfied)`: custom achievements
never unlock here; otherwise fold the condition results into an
accumulator initialised to True. -/
def Achievement.unlocked (a : Achievement) (event : String) (payload : Json)
    (satisfied : List Nat) : Except Unit PyVal :=
  if a.custom then .ok (.bool false)
  else (unlockedAux a.grouping event payload satisfied a.conditions (.bool true)).1

/-- Ids of the conditions whose `__call__` ran during
`Achievement.unlocked` on the same inputs. -/
def Achievement.unlockedEvaluated (a : Achievement) (event : String)
    (payload : Json) (satisfied : List Nat) : List Nat :=
  if a.custom then []
  else (unlockedAux a.grouping event payload satisfied a.conditions (.bool true)).2

/-- A comparison method as the registry would resolve `operator.eq`:
equality of a resolved string value with the stored literal. -/
def strEqMethod : Json → String → Bool :=
  fun v s => match v with | .str sv => sv == s | _ => false

/-- A concrete pull-request event payload. -/
def eventPullRequest : Json :=
  .obj [("action", .str "opened"), ("number", .num 7)]

/-- Condition satisfied on `eventPullRequest`: action equals "opened". -/
def vcActionOpened1 : ValueCondition :=
  ⟨"pull_request", false, strEqMethod, "action", "opened", none, none⟩

/-- A second condition satisfied on `eventPullRequest`. -/
def vcActionOpened2 : ValueCondition :=
  ⟨"pull_request", false, strEqMethod, "action", "opened", none, none⟩

/-- Condition not satisfied on `eventPullRequest`: action is not "closed". -/
def vcActionClosed : ValueCondition :=
  ⟨"pull_request", false, strEqMethod, "action", "closed", none, none⟩

/-- XOR achievement with three same-event-type conditions of which exactly
two are satisfied by `eventPullRequest`. -/
def achXorTwoSatisfied : Achievement :=
  ⟨false, .xor,
    [⟨1, .value vcActionOpened1⟩, ⟨2, .value vcActionOpened2⟩,
     ⟨3, .value vcActionClosed⟩]⟩

/-- ValueCondition on the "commits" attribute with no quantifier. -/
def vcCommits : ValueCondition :=
  ⟨"push", false, strEqMethod, "commits", "x", none, none⟩

/-- Event whose "commits" attribute is present but holds an empty list. -/
def eventEmptyCommits : Json := .obj [("commits", .arr [])]

/-- Event whose "commits" attribute holds a non-empty list of scalars. -/
def eventScalarCommits : Json := .obj [("commits", .arr [.num 1])]

/-- Event with a fan-out branch that raises a TypeError (the number 5 is
processed before the sibling branch) and a sibling branch (the empty
object) that genuinely lacks the key "b". -/
def eventMixedBranch : Json := .obj [("a", .arr [.num 5, .obj []])]

/-- ValueCondition whose attribute path "ref" is absent from `eventNoRef`. -/
def vcMissingAttr : ValueCondition :=
  ⟨"push", false, strEqMethod, "ref", "x", none, none⟩

/-- AttributeCondition whose single stored path "ref" is absent from
`eventNoRef`. -/
def acMissingAttr : AttributeCondition :=
  ⟨"push", false, (fun _ => true), [["ref"]], []⟩

/-- Event lacking the "ref" key. -/
def eventNoRef : Json := .obj [("zen", .str "ok")]

/-- ValueCondition attached to event type "issues", mismatching a
"pull_request" evaluation. -/
def vcIssuesAction : ValueCondition :=
  ⟨"issues", false, strEqMethod, "action", "opened", none, none⟩

/-- AND achievement whose second condition has a mismatching event type. -/
def achMismatch : Achievement :=
  ⟨false, .and, [⟨1, .value vcActionOpened1⟩, ⟨2, .value vcIssuesAction⟩]⟩

/-- A custom-typed achievement. -/
def achCustom : Achievement :=
  ⟨true, .and, [⟨1, .value vcActionOpened1⟩]⟩

/-- OR achievement whose only condition evaluates to not-satisfied on
`eventPullRequest`. -/
def achOrOneFalse : Achievement :=
  ⟨false, .or, [⟨1, .value vcActionClosed⟩]⟩

/-- AttributeCondition storing the fan-out path ["a", "b"]. -/
def acFanPaths : AttributeCondition :=
  ⟨"push", false, (fun _ => true), [["a", "b"]], []⟩

/-- Event from the spec's fan-out property:
`{"a": [{"b": 1}, {"b": 2}]}`. -/
def eventFan : Json :=
  .obj [("a", .arr [.obj [("b", .num 1)], .obj [("b", .num 2)]])]

theorem runQueue_nil (results : List Json) :
    runQueue [] results = .ok (if results.isEmpty then none else some results) := by
  simp [runQueue]

theorem runQueue_cons (o : Json) (ks : List String)
    (rest : List (Json × List String)) (results : List Json) :
    runQueue ((o, ks) :: rest) results =
      match processEntry o ks with
      | .err _ => .error ()
      | .missing _ => .ok none
      | .nokeys => runQueue rest results
      | .leaf v => runQueue rest (results ++ [v])
      | .fanout l ks2 => runQueue (rest ++ l.map (fun el => (el, ks2))) results := by
  simp only [runQueue]
  split <;> simp_all

theorem runQueue_nokeys_entries (l : List Json) (results : List Json) :
    runQueue (l.map (fun el => (el, ([] : List String)))) results =
      .ok (if results.isEmpty then none else some results) := by
  induction l with
  | nil => simp [runQueue_nil]
  | cons a rest ih => simp [runQueue_cons, processEntry, ih]

theorem find_obj_arr {fields : List (String × Json)} {key : String} {l : List Json}
    (hl : lookupField fields key = some (.arr l)) :
    findNestedJson (Json.obj fields) [key] = .ok none := by
  have h1 : processEntry (Json.obj fields) [key] = .fanout l [] := by
    simp [processEntry, hl]
  rw [findNestedJson, runQueue_cons, h1]
  simpa using runQueue_nokeys_entries l []

theorem processEntry_nokeys_imp : ∀ {o : Json} {ks : List String},
    processEntry o ks = .nokeys → ks = [] := by
  intro o ks
  induction o, ks using processEntry.induct with
  | case1 o => intro _; rfl
  | case2 key rest fields hl => intro h; simp [processEntry, hl] at h
  | case3 key rest fields l0 hl => intro h; simp [processEntry, hl] at h
  | case4 key fields w hne hl =>
    intro h
    cases w <;> simp [processEntry, hl] at h
  | case5 key fields w r rs hne hl ih =>
    intro h
    rw [processEntry_obj_chain hl (fun a ha => hne a ha)] at h
    exact absurd (ih h) (by simp)
  | case6 key rest s hs => intro h; simp [processEntry, hs] at h
  | case7 key rest s hs => intro h; simp [processEntry, hs] at h
  | case8 key rest l0 hc => intro h; simp [processEntry, hc] at h
  | case9 key rest l0 hc => intro h; simp [processEntry, hc] at h
  | case10 o key rest h1 h2 h3 =>
    intro h
    cases o with
    | obj fields => exact (h1 _ rfl).elim
    | str s => exact (h2 _ rfl).elim
    | arr l0 => exact (h3 _ rfl).elim
    | null => simp [processEntry] at h
    | bool b => simp [processEntry] at h
    | num n => simp [processEntry] at h

theorem missingSomewhere_obj_chain {fields : List (String × Json)} {key : String}
    {rest : List String} {w : Json} (hl : lookupField fields key = some w)
    (hne : ∀ l, w = Json.arr l → False) :
    missingSomewhere (Json.obj fields) (key :: rest) = missingSomewhere w rest := by
  cases w with
  | arr l => exact (hne l rfl).elim
  | null => simp [missingSomewhere, hl]
  | bool b => simp [missingSomewhere, hl]
  | num n => simp [missingSomewhere, hl]
  | str s => simp [missingSomewhere, hl]
  | obj fs => simp [missingSomewhere, hl]

theorem consumedTopLevel_obj_chain {fields : List (String × Json)} {key : String}
    {rest : List String} {w : Json} (hl : lookupField fields key = some w)
    (hne : ∀ l, w = Json.arr l → False) :
    consumedTopLevel (Json.obj fields) (key :: rest) = 1 + consumedTopLevel w rest := by
  cases w with
  | arr l => exact (hne l rfl).elim
  | null => simp [consumedTopLevel, hl]
  | bool b => simp [consumedTopLevel, hl]
  | num n => simp [consumedTopLevel, hl]
  | str s => simp [consumedTopLevel, hl]
  | obj fs => simp [consumedTopLevel, hl]

theorem processEntry_obj_leaf {fields : List (String × Json)} {key : String}
    {w : Json} (hl : lookupField fields key = some w)
    (hne : ∀ l, w = Json.arr l → False) :
    processEntry (Json.obj fields) [key] = .leaf w := by
  cases w with
  | arr l => exact (hne l rfl).elim
  | null => simp [processEntry, hl]
  | bool b => simp [processEntry, hl]
  | num n => simp [processEntry, hl]
  | str s => simp [processEntry, hl]
  | obj fs => simp [processEntry, hl]

theorem processEntry_leaf_missing : ∀ {o : Json} {ks : List String},
    (∀ {v : Json}, processEntry o ks = .leaf v → missingSomewhere o ks = false) := by
  intro o ks
  induction o, ks using processEntry.induct with
  | case1 o => intro v h; simp [missingSomewhere]
  | case2 key rest fields hl => intro v h; simp [processEntry, hl] at h
  | case3 key rest fields l0 hl => intro v h; simp [processEntry, hl] at h
  | case4 key fields w hne hl =>
    intro v h
    rw [missingSomewhere_obj_chain hl (fun a ha => hne a ha)]
    simp [missingSomewhere]
  | case5 key fields w r rs hne hl ih =>
    intro v h
    rw [processEntry_obj_chain hl (fun a ha => hne a ha)] at h
    rw [missingSomewhere_obj_chain hl (fun a ha => hne a ha)]
    exact ih h
  | case6 key rest s hs => intro v h; simp [processEntry, hs] at h
  | case7 key rest s hs => intro v h; simp [processEntry, hs] at h
  | case8 key rest l0 hc => intro v h; simp [processEntry, hc] at h
  | case9 key rest l0 hc => intro v h; simp [processEntry, hc] at h
  | case10 o key rest h1 h2 h3 =>
    intro v h
    cases o with
    | obj fields => exact (h1 _ rfl).elim
    | str s => exact (h2 _ rfl).elim
    | arr l0 => exact (h3 _ rfl).elim
    | null => simp [processEntry] at h
    | bool b => simp [processEntry] at h
    | num n => simp [processEntry] at h

theorem processEntry_fanout_missing : ∀ {o : Json} {ks : List String}
    {l : List Json} {ks2 : List String}, processEntry o ks = .fanout l ks2 →
    missingSomewhere o ks = l.any (fun el => missingSomewhere el ks2) := by
  intro o ks
  induction o, ks using processEntry.induct with
  | case1 o => intro l ks2 h; simp [processEntry] at h
  | case2 key rest fields hl => intro l ks2 h; simp [processEntry, hl] at h
  | case3 key rest fields l0 hl =>
    intro l ks2 h
    simp [processEntry, hl] at h
    rw [← h.1, ← h.2]
    simp [missingSomewhere, hl]
  | case4 key fields w hne hl =>
    intro l ks2 h
    rw [processEntry_obj_leaf hl (fun a ha => hne a ha)] at h
    exact absurd h (by simp)
  | case5 key fields w r rs hne hl ih =>
    intro l ks2 h
    rw [processEntry_obj_chain hl (fun a ha => hne a ha)] at h
    rw [missingSomewhere_obj_chain hl (fun a ha => hne a ha)]
    exact ih h
  | case6 key rest s hs => intro l ks2 h; simp [processEntry, hs] at h
  | case7 key rest s hs => intro l ks2 h; simp [processEntry, hs] at h
  | case8 key rest l0 hc => intro l ks2 h; simp [processEntry, hc] at h
  | case9 key rest l0 hc => intro l ks2 h; simp [processEntry, hc] at h
  | case10 o key rest h1 h2 h3 =>
    intro l ks2 h
    cases o with
    | obj fields => exact (h1 _ rfl).elim
    | str s => exact (h2 _ rfl).elim
    | arr l0 => exact (h3 _ rfl).elim
    | null => simp [processEntry] at h
    | bool b => simp [processEntry] at h
    | num n => simp [processEntry] at h



theorem runQueue_missing_none :
    ∀ (queue : List (Json × List String)) (acc : List Json),
    (∃ e ∈ queue, missingSomewhere e.1 e.2 = true) →
    runQueue queue acc = .ok none ∨ runQueue queue acc = .error () := by
  intro queue acc
  induction queue, acc using runQueue.induct with
  | case1 acc =>
    intro hex
    rcases hex with ⟨e, he, _⟩
    exact absurd he (List.not_mem_nil e)
  | case2 o ks rest acc rem hpe =>
    intro _
    right
    rw [runQueue_cons, hpe]
  | case3 o ks rest acc rem hpe =>
    intro _
    left
    rw [runQueue_cons, hpe]
  | case4 o ks rest acc hpe ih =>
    intro hex
    rw [runQueue_cons, hpe]
    apply ih
    rcases hex with ⟨e, he, hm⟩
    rcases List.mem_cons.mp he with he1 | he2
    · exfalso
      have hks : ks = [] := processEntry_nokeys_imp hpe
      subst hks
      rw [he1] at hm
      simp [missingSomewhere] at hm
    · exact ⟨e, he2, hm⟩
  | case5 o ks rest acc v hpe ih =>
    intro hex
    rw [runQueue_cons, hpe]
    apply ih
    rcases hex with ⟨e, he, hm⟩
    rcases List.mem_cons.mp he with he1 | he2
    · exfalso
      rw [he1] at hm
      rw [processEntry_leaf_missing hpe] at hm
      exact Bool.false_ne_true hm
    · exact ⟨e, he2, hm⟩
  | case6 o ks rest acc l ks2 hpe ih =>
    intro hex
    rw [runQueue_cons, hpe]
    apply ih
    rcases hex with ⟨e, he, hm⟩
    rcases List.mem_cons.mp he with he1 | he2
    · rw [he1] at hm
      rw [processEntry_fanout_missing hpe] at hm
      rcases List.any_eq_true.mp hm with ⟨el, hel, hmel⟩
      exact ⟨(el, ks2), List.mem_append_right _ (List.mem_map_of_mem _ hel), hmel⟩
    · exact ⟨e, List.mem_append_left _ he2, hm⟩

theorem runQueue_ok_some_ne_nil :
    ∀ (queue : List (Json × List String)) (acc : List Json) {r : List Json},
    runQueue queue acc = .ok (some r) → r ≠ [] := by
  intro queue acc
  induction queue, acc using runQueue.induct with
  | case1 acc =>
    intro r h
    rw [runQueue_nil] at h
    by_cases hacc : acc.isEmpty
    · simp [hacc] at h
    · simp [hacc] at h
      rw [← h]
      simpa [List.isEmpty_iff] using hacc
  | case2 o ks rest acc rem hpe =>
    intro r h
    rw [runQueue_cons, hpe] at h
    exact absurd h (by simp)
  | case3 o ks rest acc rem hpe =>
    intro r h
    rw [runQueue_cons, hpe] at h
    exact absurd h (by simp)
  | case4 o ks rest acc hpe ih =>
    intro r h
    rw [runQueue_cons, hpe] at h
    exact ih h
  | case5 o ks rest acc v hpe ih =>
    intro r h
    rw [runQueue_cons, hpe] at h
    exact ih h
  | case6 o ks rest acc l ks2 hpe ih =>
    intro r h
    rw [runQueue_cons, hpe] at h
    exact ih h

theorem keysAfter_drop : ∀ (o : Json) (ks : List String),
    findNestedJsonKeysAfter o ks = ks.drop (consumedTopLevel o ks) := by
  intro o ks
  induction o, ks using processEntry.induct with
  | case1 o => simp [findNestedJsonKeysAfter, processEntry, consumedTopLevel]
  | case2 key rest fields hl =>
    have h1 : processEntry (Json.obj fields) (key :: rest) = .missing (key :: rest) := by
      simp [processEntry, hl]
    simp [findNestedJsonKeysAfter, h1, consumedTopLevel, hl]
  | case3 key rest fields l0 hl =>
    have h1 : processEntry (Json.obj fields) (key :: rest) = .fanout l0 rest := by
      simp [processEntry, hl]
    simp [findNestedJsonKeysAfter, h1, consumedTopLevel, hl]
  | case4 key fields w hne hl =>
    have h1 := processEntry_obj_leaf hl (fun a ha => hne a ha)
    rw [findNestedJsonKeysAfter, h1, consumedTopLevel_obj_chain hl (fun a ha => hne a ha)]
    simp [consumedTopLevel]
  | case5 key fields w r rs hne hl ih =>
    have h1 := @processEntry_obj_chain fields key r rs w hl (fun a ha => hne a ha)
    rw [findNestedJsonKeysAfter, h1, consumedTopLevel_obj_chain hl (fun a ha => hne a ha)]
    rw [findNestedJsonKeysAfter] at ih
    cases hpe : processEntry w (r :: rs) with
    | nokeys => exact absurd (processEntry_nokeys_imp hpe) (by simp)
    | err rem =>
      rw [hpe] at ih
      simpa [Nat.add_comm 1 (consumedTopLevel w (r :: rs))] using ih
    | missing rem =>
      rw [hpe] at ih
      simpa [Nat.add_comm 1 (consumedTopLevel w (r :: rs))] using ih
    | leaf v =>
      rw [hpe] at ih
      simpa [Nat.add_comm 1 (consumedTopLevel w (r :: rs))] using ih
    | fanout l ks2 =>
      rw [hpe] at ih
      simpa [Nat.add_comm 1 (consumedTopLevel w (r :: rs))] using ih
  | case6 key rest s hs =>
    have h1 : processEntry (Json.str s) (key :: rest) = .err (key :: rest) := by
      simp [processEntry, hs]
    simp [findNestedJsonKeysAfter, h1, consumedTopLevel]
  | case7 key rest s hs =>
    have h1 : processEntry (Json.str s) (key :: rest) = .missing (key :: rest) := by
      simp [processEntry, hs]
    simp [findNestedJsonKeysAfter, h1, consumedTopLevel]
  | case8 key rest l0 hc =>
    have h1 : processEntry (Json.arr l0) (key :: rest) = .err (key :: rest) := by
      simp [processEntry, hc]
    simp [findNestedJsonKeysAfter, h1, consumedTopLevel]
  | case9 key rest l0 hc =>
    have h1 : processEntry (Json.arr l0) (key :: rest) = .missing (key :: rest) := by
      simp [processEntry, hc]
    simp [findNestedJsonKeysAfter, h1, consumedTopLevel]
  | case10 o key rest h1 h2 h3 =>
    cases o with
    | obj fields => exact (h1 _ rfl).elim
    | str s => exact (h2 _ rfl).elim
    | arr l0 => exact (h3 _ rfl).elim
    | null => simp [findNestedJsonKeysAfter, processEntry, consumedTopLevel]
    | bool b => simp [findNestedJsonKeysAfter, processEntry, consumedTopLevel]
    | num n => simp [findNestedJsonKeysAfter, processEntry, consumedTopLevel]

theorem attrEvalAux_missing (event : Json) (method : List (List Json) → Bool)
    (qualifiers : List (Option (List Json → List Json))) (bad : List String)
    (post : List (List String)) (hbad : findNestedJson event bad = .ok none) :
    ∀ (pre : List (List String)) (index : Nat) (results : List (List Json)),
    (∀ p ∈ pre, ∃ d, findNestedJson event p = .ok (some d)) →
    (attrEvalAux event method qualifiers (pre ++ bad :: post) index results).1 = .ok none := by
  intro pre
  induction pre with
  | nil =>
    intro index results _
    simp [attrEvalAux, hbad]
  | cons p rest ih =>
    intro index results hpre
    obtain ⟨d, hd⟩ := hpre p (List.mem_cons_self p rest)
    simp only [List.cons_append, attrEvalAux, hd]
    exact ih (index + 1) _ (fun q hq => hpre q (List.mem_cons_of_mem p hq))

theorem unlockedAux_mismatch (g : Grouping) (event : String) (payload : Json)
    (satisfied : List Nat) (cm : AchievementCondition)
    (post : List AchievementCondition)
    (hid : cm.id ∉ satisfied)
    (hty : ¬cm.condition.eventType = event) :
    ∀ (pre : List AchievementCondition) (b : Bool),
    (∀ c ∈ pre, c.id ∈ satisfied ∨
      (c.condition.eventType = event ∧ ∃ bb, c.condition.call payload = .ok (some bb))) →
    unlockedAux g event payload satisfied (pre ++ cm :: post) (.bool b) =
      (.ok (.bool false),
        (pre.filter (fun c => decide (c.id ∉ satisfied))).map (fun c => c.id)) := by
  intro pre
  induction pre with
  | nil =>
    intro b _
    simp [unlockedAux, hid, hty]
  | cons c rest ih =>
    intro b hpre
    by_cases hsat : c.id ∈ satisfied
    · rw [show (c :: rest) ++ cm :: post = c :: (rest ++ cm :: post) from rfl]
      simp only [unlockedAux, if_pos hsat]
      rw [ih b (fun d hd => hpre d (List.mem_cons_of_mem c hd))]
      simp [List.filter_cons, hsat]
    · rcases hpre c (List.mem_cons_self c rest) with hsat2 | ⟨hty2, bb, hcall⟩
      · exact absurd hsat2 hsat
      · rw [show (c :: rest) ++ cm :: post = c :: (rest ++ cm :: post) from rfl]
        simp only [unlockedAux, if_neg hsat, if_pos hty2, hcall, pyGroup]
        rw [ih (g.apply b bb) (fun d hd => hpre d (List.mem_cons_of_mem c hd))]
        simp [List.filter_cons, hsat]

theorem unlockedAux_or_true (event : String) (payload : Json) (satisfied : List Nat) :
    ∀ (conds : List AchievementCondition),
    (∀ c ∈ conds, c.id ∉ satisfied →
      (c.condition.eventType = event ∧ ∃ b, c.condition.call payload = .ok (some b))) →
    (unlockedAux .or event payload satisfied conds (.bool true)).1 = .ok (.bool true) := by
  intro conds
  induction conds with
  | nil => intro _; simp [unlockedAux]
  | cons c rest ih =>
    intro h
    by_cases hsat : c.id ∈ satisfied
    · simp only [unlockedAux, if_pos hsat]
      exact ih (fun d hd hs => h d (List.mem_cons_of_mem c hd) hs)
    · obtain ⟨hty, b, hcall⟩ := h c (List.mem_cons_self c rest) hsat
      simp only [unlockedAux, if_neg hsat, if_pos hty, hcall, pyGroup, Grouping.apply,
        Bool.true_or]
      exact ih (fun d hd hs => h d (List.mem_cons_of_mem c hd) hs)

theorem vcActionOpened1_call :
    Condition.call (.value vcActionOpened1) eventPullRequest = .ok (some true) := by
  have hsplit : pySplitDot "action" = ["action"] := by decide
  simp [Condition.call, ValueCondition.call, vcActionOpened1, hsplit, eventPullRequest,
    findNestedJson, runQueue_cons, runQueue_nil, processEntry, lookupField, strEqMethod]

theorem vcActionOpened2_call :
    Condition.call (.value vcActionOpened2) eventPullRequest = .ok (some true) := by
  have hsplit : pySplitDot "action" = ["action"] := by decide
  simp [Condition.call, ValueCondition.call, vcActionOpened2, hsplit, eventPullRequest,
    findNestedJson, runQueue_cons, runQueue_nil, processEntry, lookupField, strEqMethod]

theorem vcActionClosed_call :
    Condition.call (.value vcActionClosed) eventPullRequest = .ok (some false) := by
  have hsplit : pySplitDot "action" = ["action"] := by decide
  simp [Condition.call, ValueCondition.call, vcActionClosed, hsplit, eventPullRequest,
    findNestedJson, runQueue_cons, runQueue_nil, processEntry, lookupField, strEqMethod]

/-- C1 (counterexample): an XOR achievement with 3 conditions, none already
satisfied, all matching the event type, of which exactly two evaluate to
satisfied, is reported UNLOCKED: the fold computes
true XOR true XOR true XOR false = true, so the claim's "returns false" is
wrong on the code. -/
theorem claimC1_counterexample :
    achXorTwoSatisfied.unlocked "pull_request" eventPullRequest [] = .ok (.bool true) ∧
    achXorTwoSatisfied.unlocked "pull_request" eventPullRequest [] ≠ .ok (.bool false) := by
  have ht1 : Condition.eventType (.value vcActionOpened1) = "pull_request" := rfl
  have ht2 : Condition.eventType (.value vcActionOpened2) = "pull_request" := rfl
  have ht3 : Condition.eventType (.value vcActionClosed) = "pull_request" := rfl
  have h : achXorTwoSatisfied.unlocked "pull_request" eventPullRequest [] = .ok (.bool true) := by
    simp [achXorTwoSatisfied, Achievement.unlocked, unlockedAux, ht1, ht2, ht3,
      vcActionOpened1_call, vcActionOpened2_call, vcActionClosed_call, pyGroup,
      Grouping.apply]
  exact ⟨h, by rw [h]; simp⟩

/-- C1 (amended): for an achievement with XOR grouping and 3 conditions,
none already satisfied and all matching the event type, of which exactly
two evaluate to satisfied, `unlocked` returns TRUE: the grouping is a
pairwise left fold whose accumulator is initialized to true, and
true XOR true XOR true XOR false = true under that fold. -/
theorem claimC1_amended (a : Achievement) (event : String) (payload : Json)
    (satisfied : List Nat) (c1 c2 c3 : AchievementCondition) (b1 b2 b3 : Bool)
    (hcustom : a.custom = false) (hgroup : a.grouping = .xor)
    (hconds : a.conditions = [c1, c2, c3])
    (hs1 : c1.id ∉ satisfied) (hs2 : c2.id ∉ satisfied) (hs3 : c3.id ∉ satisfied)
    (ht1 : c1.condition.eventType = event) (ht2 : c2.condition.eventType = event)
    (ht3 : c3.condition.eventType = event)
    (hc1 : c1.condition.call payload = .ok (some b1))
    (hc2 : c2.condition.call payload = .ok (some b2))
    (hc3 : c3.condition.call payload = .ok (some b3))
    (htwo : (if b1 then 1 else 0) + (if b2 then 1 else 0) + (if b3 then 1 else 0) = 2) :
    a.unlocked event payload satisfied = .ok (.bool true) := by
  simp only [Achievement.unlocked, hcustom, Bool.false_eq_true, if_false, hconds, hgroup]
  cases b1 <;> cases b2 <;> cases b3 <;>
    simp_all [unlockedAux, pyGroup, Grouping.apply]

/-- C1 (witness): the amended claim applied to the concrete XOR achievement
with two of three conditions satisfied. -/
theorem claimC1_witness :
    achXorTwoSatisfied.unlocked "pull_request" eventPullRequest [] = .ok (.bool true) := by
  refine claimC1_amended achXorTwoSatisfied "pull_request" eventPullRequest []
    ⟨1, .value vcActionOpened1⟩ ⟨2, .value vcActionOpened2⟩ ⟨3, .value vcActionClosed⟩
    true true false rfl rfl rfl ?_ ?_ ?_ rfl rfl rfl
    vcActionOpened1_call vcActionOpened2_call vcActionClosed_call (by decide) <;>
    simp

/-- C2 (counterexample): a ValueCondition whose attribute is present in the
event but holds an empty list, with no quantifier, evaluates to FALSE, not
true: `find_nested_json` reports the empty result collection as None and
`ValueCondition.__call__` maps None to False. -/
theorem claimC2_counterexample :
    vcCommits.call eventEmptyCommits = .ok false ∧
    vcCommits.call eventEmptyCommits ≠ .ok true := by
  have hsplit : pySplitDot "commits" = ["commits"] := by decide
  have h : vcCommits.call eventEmptyCommits = .ok false := by
    simp [vcCommits, ValueCondition.call, hsplit, eventEmptyCommits,
      findNestedJson, runQueue_cons, runQueue_nil, processEntry, lookupField]
  exact ⟨h, by rw [h]; simp⟩

/-- C2 (amended): a ValueCondition whose attribute path resolves to an
attribute present in the event but holding an empty list, with no
quantifier, evaluates to FALSE: the resolver returns None for an empty
result collection, the condition maps None to False, and the vacuous-AND
branch is never reached. -/
theorem claimC2_amended (c : ValueCondition) (fields : List (String × Json))
    (key : String) (hsplit : pySplitDot c.attr = [key])
    (hl : lookupField fields key = some (Json.arr []))
    (hq : c.quantifier = none) :
    c.call (Json.obj fields) = .ok false := by
  by_cases hc : c.conditionCustom
  · simp [ValueCondition.call, hc]
  · simp [ValueCondition.call, hc, hsplit, find_obj_arr hl]

/-- C2 (witness): the amended claim applied to the concrete condition on
the empty "commits" list. -/
theorem claimC2_witness : vcCommits.call eventEmptyCommits = .ok false := by
  refine claimC2_amended vcCommits [("commits", Json.arr [])] "commits"
    (by decide) (by simp [lookupField]) rfl

/-- C3 (counterexample): for the event `{"commits": [1]}` mapping the key
to a non-empty list, `resolve(e, ["commits"])` returns None, not the
collection of the list's elements. -/
theorem claimC3_counterexample :
    findNestedJson eventScalarCommits ["commits"] = .ok none ∧
    findNestedJson eventScalarCommits ["commits"] ≠ .ok (some [Json.num 1]) := by
  have h : findNestedJson eventScalarCommits ["commits"] = .ok none := by
    simp [eventScalarCommits, findNestedJson, runQueue_cons, runQueue_nil,
      processEntry, lookupField]
  exact ⟨h, by rw [h]; simp⟩

/-- C3 (amended): for every event mapping a key to a non-empty list,
`resolve(e, [k])` returns None: the fan-out entries are enqueued with
empty remaining-keys lists, and an entry whose keys are already exhausted
when dequeued never appends its value — values are appended only at the
moment the final key is consumed with a non-list value. -/
theorem claimC3_amended (fields : List (String × Json)) (key : String)
    (l : List Json) (hne : l ≠ [])
    (hl : lookupField fields key = some (Json.arr l)) :
    findNestedJson (Json.obj fields) [key] = .ok none :=
  find_obj_arr hl

/-- C3 (witness): the amended claim applied to `{"commits": [1]}`. -/
theorem claimC3_witness :
    findNestedJson (Json.obj [("commits", Json.arr [Json.num 1])]) ["commits"] = .ok none :=
  claimC3_amended [("commits", Json.arr [Json.num 1])] "commits" [Json.num 1]
    (by simp) (by simp [lookupField])

/-- C4 (counterexample): in `{"a": [5, {}]}` with path ["a", "b"], the key
"b" is genuinely absent on the second fan-out branch (the empty object),
yet the resolution does not return None: the first branch raises a
TypeError (`"b" in 5`) before the missing key is ever reached. -/
theorem claimC4_counterexample :
    missingSomewhere eventMixedBranch ["a", "b"] = true ∧
    lookupField [] "b" = none ∧
    findNestedJson eventMixedBranch ["a", "b"] = .error () := by
  refine ⟨?_, rfl, ?_⟩
  · simp [eventMixedBranch, missingSomewhere, lookupField, listContainsStr]
  · simp [eventMixedBranch, findNestedJson, runQueue_cons, runQueue_nil,
      processEntry, lookupField, listContainsStr, pyInStr]

/-- C4 (amended): if any key of p is absent, under Python's membership
test, at the corresponding point of e on any branch, then `resolve(e, p)`
does not produce a result collection: it returns None unless an earlier
processed branch raises a TypeError by testing membership in a
non-container value; and an empty result collection is also reported as
None (the resolver never returns an empty collection). -/
theorem claimC4_amended (e : Json) (p : List String) :
    (missingSomewhere e p = true →
      findNestedJson e p = .ok none ∨ findNestedJson e p = .error ()) ∧
    ∀ r : List Json, findNestedJson e p = .ok (some r) → r ≠ [] := by
  constructor
  · intro hm
    exact runQueue_missing_none [(e, p)] [] ⟨(e, p), List.mem_singleton.mpr rfl, hm⟩
  · intro r h
    exact runQueue_ok_some_ne_nil [(e, p)] [] h

/-- C4 (witness): the amended claim applied to the empty object and the
path ["a"], whose key is absent. -/
theorem claimC4_witness :
    (findNestedJson (Json.obj []) ["a"] = .ok none ∨
      findNestedJson (Json.obj []) ["a"] = .error ()) ∧
    findNestedJson (Json.obj []) ["a"] ≠ .ok (some []) := by
  constructor
  · exact (claimC4_amended (Json.obj []) ["a"]).1 (by simp [missingSomewhere, lookupField])
  · exact fun h => (claimC4_amended (Json.obj []) ["a"]).2 [] h rfl

/-- C5: when an attribute path fails to resolve against the event,
`AttributeCondition.__call__` returns None while `ValueCondition.__call__`
returns False — the asymmetry holds in both directions. -/
theorem claimC5_asymmetry (vc : ValueCondition) (ac : AttributeCondition)
    (e1 e2 : Json) (hv : findNestedJson e1 (pySplitDot vc.attr) = .ok none)
    (hacustom : ac.conditionCustom = false)
    (pre post : List (List String)) (bad : List String)
    (hattrs : ac.attributes = pre ++ bad :: post)
    (hpre : ∀ p ∈ pre, ∃ d, findNestedJson e2 p = .ok (some d))
    (hbad : findNestedJson e2 bad = .ok none) :
    vc.call e1 = .ok false ∧ ac.call e2 = .ok none := by
  constructor
  · by_cases hc : vc.conditionCustom
    · simp [ValueCondition.call, hc]
    · simp [ValueCondition.call, hc, hv]
  · rw [AttributeCondition.call, AttributeCondition.callM, if_neg (by simp [hacustom]),
      hattrs]
    exact attrEvalAux_missing e2 ac.method ac.qualifiers bad post hbad pre 0 [] hpre

/-- C5 (witness): the asymmetry at the concrete event lacking "ref". -/
theorem claimC5_witness :
    vcMissingAttr.call eventNoRef = .ok false ∧
    acMissingAttr.call eventNoRef = .ok none := by
  have hsplit : pySplitDot vcMissingAttr.attr = ["ref"] := by decide
  refine claimC5_asymmetry vcMissingAttr acMissingAttr eventNoRef eventNoRef ?_ rfl
    [] [] ["ref"] rfl ?_ ?_
  · rw [hsplit]
    simp [eventNoRef, findNestedJson, runQueue_cons, runQueue_nil, processEntry,
      lookupField]
  · simp
  · simp [eventNoRef, findNestedJson, runQueue_cons, runQueue_nil, processEntry,
      lookupField]

/-- C6: a non-custom achievement with a not-already-satisfied condition
whose event type differs from the evaluated event type returns False the
moment that condition is reached, whatever the payload holds, and the
conditions after it are never evaluated (the recorded evaluated ids are
exactly the not-skipped conditions before it). -/
theorem claimC6_mismatch (a : Achievement) (event : String) (payload : Json)
    (satisfied : List Nat) (pre post : List AchievementCondition)
    (cm : AchievementCondition) (hcustom : a.custom = false)
    (hconds : a.conditions = pre ++ cm :: post)
    (hid : cm.id ∉ satisfied)
    (hty : ¬cm.condition.eventType = event)
    (hpre : ∀ c ∈ pre, c.id ∈ satisfied ∨
      (c.condition.eventType = event ∧ ∃ b, c.condition.call payload = .ok (some b))) :
    a.unlocked event payload satisfied = .ok (.bool false) ∧
    a.unlockedEvaluated event payload satisfied =
      (pre.filter (fun c => decide (c.id ∉ satisfied))).map (fun c => c.id) := by
  have h := unlockedAux_mismatch a.grouping event payload satisfied cm post hid hty
    pre true hpre
  constructor
  · simp only [Achievement.unlocked, hcustom, Bool.false_eq_true, if_false, hconds, h]
  · simp only [Achievement.unlockedEvaluated, hcustom, Bool.false_eq_true, if_false,
      hconds, h]

/-- C6 (witness): the concrete AND achievement whose second condition is
attached to the "issues" event type, evaluated on a "pull_request" event:
returns False having evaluated only condition 1. -/
theorem claimC6_witness :
    achMismatch.unlocked "pull_request" eventPullRequest [] = .ok (.bool false) ∧
    achMismatch.unlockedEvaluated "pull_request" eventPullRequest [] = [1] := by
  have h := claimC6_mismatch achMismatch "pull_request" eventPullRequest []
    [⟨1, .value vcActionOpened1⟩] [] ⟨2, .value vcIssuesAction⟩ rfl rfl (by simp)
    (by simp [Condition.eventType, vcIssuesAction]) ?_
  · exact ⟨h.1, by rw [h.2]; rfl⟩
  · intro c hc
    rw [List.mem_singleton.mp hc]
    exact Or.inr ⟨rfl, true, vcActionOpened1_call⟩

/-- C7: `unlocked` on any achievement whose achievement-type is custom
returns False, for every event type, payload and already-satisfied set. -/
theorem claimC7_custom (a : Achievement) (event : String) (payload : Json)
    (satisfied : List Nat) (hcustom : a.custom = true) :
    a.unlocked event payload satisfied = .ok (.bool false) := by
  simp [Achievement.unlocked, hcustom]

/-- C7 (witness): the concrete custom achievement never unlocks. -/
theorem claimC7_witness :
    achCustom.unlocked "pull_request" eventPullRequest [] = .ok (.bool false) :=
  claimC7_custom achCustom "pull_request" eventPullRequest [] rfl

/-- C9: a non-custom achievement with OR grouping whose not-yet-satisfied
conditions all match the evaluated event type and evaluate to some boolean
is reported unlocked whatever those booleans are: the accumulator starts
at true and true OR x = true. -/
theorem claimC9_or (a : Achievement) (event : String) (payload : Json)
    (satisfied : List Nat) (hcustom : a.custom = false) (hgroup : a.grouping = .or)
    (hconds : ∀ c ∈ a.conditions, c.id ∉ satisfied →
      (c.condition.eventType = event ∧ ∃ b, c.condition.call payload = .ok (some b))) :
    a.unlocked event payload satisfied = .ok (.bool true) := by
  simp only [Achievement.unlocked, hcustom, Bool.false_eq_true, if_false, hgroup]
  exact unlockedAux_or_true event payload satisfied a.conditions hconds

/-- C9 (witness): the OR achievement whose only condition evaluates to
false still unlocks. -/
theorem claimC9_witness :
    achOrOneFalse.unlocked "pull_request" eventPullRequest [] = .ok (.bool true) := by
  refine claimC9_or achOrOneFalse "pull_request" eventPullRequest [] rfl rfl ?_
  intro c hc hs
  have hc2 : c = ⟨1, .value vcActionClosed⟩ := by
    simpa [achOrOneFalse] using hc
  rw [hc2]
  exact ⟨rfl, false, vcActionClosed_call⟩

/-- C8: for the event `{"a": [{"b": 1}, {"b": 2}]}` and the path
["a", "b"], `resolve` returns the collection [1, 2]. -/
theorem claimC8_fanout :
    findNestedJson eventFan ["a", "b"] = .ok (some [Json.num 1, Json.num 2]) := by
  simp [eventFan, findNestedJson, runQueue_cons, runQueue_nil, processEntry, lookupField]

/-- C10: `find_nested_json` mutates its keys argument in place — after the
call the caller's list is exactly the original with the consumed top-level
prefix popped; and `AttributeCondition.__call__` hands its stored
attribute-path lists to the resolver directly, so evaluating the condition
mutates the stored paths (here ["a", "b"] becomes ["b"] after the fan-out
consumed "a"). -/
theorem claimC10_mutation :
    (∀ (o : Json) (ks : List String),
      findNestedJsonKeysAfter o ks = ks.drop (consumedTopLevel o ks)) ∧
    (acFanPaths.callM eventFan).2 = [["b"]] ∧
    acFanPaths.attributes = [["a", "b"]] := by
  refine ⟨keysAfter_drop, ?_, rfl⟩
  simp [acFanPaths, AttributeCondition.callM, attrEvalAux, eventFan,
    findNestedJsonKeysAfter, findNestedJson, runQueue_cons, runQueue_nil,
    processEntry, lookupField]

end GitAchievements
